import Mathlib

/-!
Verification development for the functional style checker
(src/Assignment 2/functional_style_checker.py).

The Python AST fragment relevant to the program is embedded as the
mutually inductive types Expr, Sl (subscript slices, with the
Index wrapper of the Python 3.8 ast, which is the shape the source
relies on when it reads annotation.slice.value) and Stmt.  Statement
trees carry enough structure for ast.walk (breadth first traversal),
the parent map, ast.get_docstring (modelled as a stored field, since
the docstring accessor is part of the external ast library), and the
per declaration data the extractor reads.  Attribute accesses that can
raise AttributeError in Python are modelled with Except PyErr.
-/

namespace StyleChecker

/-- Errors a run can raise while extracting: the only reachable one in
annotation rendering is AttributeError. -/
inductive PyErr where
  | attributeError
  deriving DecidableEq

mutual
/-- Expression nodes that can occur as type annotations. -/
inductive Expr where
  | name (id : String)
  | attribute (value : Expr) (attr : String)
  | subscript (value : Expr) (slice : Sl)
  | constantStr (s : String)
  | constantOther
  | tupleE (elts : List Expr)
  | binOp (lhs rhs : Expr)

/-- Subscript slices: a plain index (which has a value field) or a
range or extended slice (which has no value field, so reading
slice.value raises AttributeError). -/
inductive Sl where
  | index (value : Expr)
  | sliceKind
end

/-- One formal parameter as the ast presents it: name and optional
annotation expression. -/
structure Arg where
  arg : String
  annot : Option Expr

/-- Statement nodes.  Docstrings are stored as the field the external
ast.get_docstring accessor would return.  The simple constructor covers
statements with no statement children (pass, assignments, expression
statements); compound covers blocks such as if or while whose children
are statements. -/
inductive Stmt where
  | importS (names : List String)
  | importFrom (module : Option String) (names : List String)
  | classDef (name : String) (docstring : Option String) (body : List Stmt)
  | funcDef (name : String) (docstring : Option String) (args : List Arg)
      (returns : Option Expr) (body : List Stmt)
  | asyncFuncDef (name : String) (docstring : Option String) (args : List Arg)
      (returns : Option Expr) (body : List Stmt)
  | simple
  | compound (body : List Stmt)

/-- Rendered parameter record (dict with keys name and annotation in the
source). -/
structure ParamInfo where
  name : String
  annot : Option String
  deriving DecidableEq

/-- Rendered function or method record. -/
structure FunctionInfo where
  name : String
  docstring : Option String
  args : List ParamInfo
  returns : Option String
  deriving DecidableEq

/-- Rendered class record. -/
structure ClassInfo where
  name : String
  docstring : Option String
  methods : List FunctionInfo
  deriving DecidableEq

/-- Accumulator state of the extraction loop: the three lists built by
parse_file_structure. -/
structure Rec0 where
  imports : List String
  classes : List ClassInfo
  functions : List FunctionInfo
  deriving DecidableEq

/-- The dictionary returned by parse_file_structure. -/
structure StructuralRecord where
  lines_of_code : Nat
  imports : List String
  classes : List ClassInfo
  functions : List FunctionInfo
  deriving DecidableEq

/-- Faithful rendering of annotation_to_string.  The branch order and
the attribute accesses mirror the Python source: annotation.value.id
raises when the attribute base is not a bare name, and for a subscript
whose base has an id field, annotation.slice.value raises when the
slice is not a plain index (the boolean and in the source evaluates its
right operand only after the left one succeeded). -/
def annotation_to_string : Option Expr → Except PyErr (Option String)
  | none => .ok none
  | some (.name i) => .ok (some i)
  | some (.attribute (.name b) attr) => .ok (some (b ++ "." ++ attr))
  | some (.attribute _ _) => .error .attributeError
  | some (.subscript (.name b) sl) =>
      match sl with
      | .index (.name a) => .ok (some (b ++ "[" ++ a ++ "]"))
      | .index _ => .ok none
      | .sliceKind => .error .attributeError
  | some (.subscript _ _) => .ok none
  | some _ => .ok none

/-- Does the node have an id field (only Name nodes do)? -/
def hasId : Expr → Bool
  | .name _ => true
  | _ => false

/-- Is the slice a plain index (the only slice shape with a value
field)? -/
def isIndexSl : Sl → Bool
  | .index _ => true
  | .sliceKind => false

/-- Modelled from the spec, for comparison with the source function:
the shapes on which rendering raises AttributeError, namely an
attribute whose base is not a bare name, and a subscript whose base is
a bare name but whose slice is not a plain index. -/
def annotationSpecRaises : Option Expr → Bool
  | some (.attribute v _) => !hasId v
  | some (.subscript v sl) => hasId v && !isIndexSl sl
  | _ => false

/-- Modelled from the spec, for comparison with the source function:
the best effort rendering of section 4.1 of the spec (bare name, one
level qualified name, single argument generic over bare names; absent
otherwise). -/
def annotationSpecRender : Option Expr → Option String
  | some (.name i) => some i
  | some (.attribute (.name b) attr) => some (b ++ "." ++ attr)
  | some (.subscript (.name b) (.index (.name a))) => some (b ++ "[" ++ a ++ "]")
  | _ => none

/-- Rendering of one formal parameter (the dict comprehension over
args.args in the source). -/
def argInfo (a : Arg) : Except PyErr ParamInfo := do
  let an ← annotation_to_string a.annot
  pure ⟨a.arg, an⟩

/-- Rendering of the full parameter list, in declared order, stopping
at the first raised error as the comprehension would. -/
def argInfos : List Arg → Except PyErr (List ParamInfo)
  | [] => pure []
  | a :: r => do
      let p ← argInfo a
      let ps ← argInfos r
      pure (p :: ps)

/-- Building one function or method record (function_info and
method_info in the source). -/
def funcInfoOf (n : String) (doc : Option String) (args : List Arg)
    (ret : Option Expr) : Except PyErr FunctionInfo := do
  let ps ← argInfos args
  let rs ← annotation_to_string ret
  pure ⟨n, doc, ps, rs⟩

/-- The loop over the class body: direct children that are function
definitions become methods, in body order.  Async function definitions
and anything else are skipped by the isinstance check. -/
def methodsOf : List Stmt → Except PyErr (List FunctionInfo)
  | [] => pure []
  | .funcDef n d a r _ :: rest => do
      let fi ← funcInfoOf n d a r
      let ms ← methodsOf rest
      pure (fi :: ms)
  | _ :: rest => methodsOf rest

/-- The parent test of the source: isinstance of the recorded parent
with ast.ClassDef (a missing parent, at module level, reads as None). -/
def isClassDefOpt : Option Stmt → Bool
  | some (.classDef _ _ _) => true
  | _ => false

/-- Contribution of a single walked node to the three accumulator
lists, given its recorded parent.  This mirrors the if and elif chain
of the extraction loop; the isinstance classes are mutually exclusive
constructors, so the chain is a plain case split. -/
def stepC (p : Option Stmt) : Stmt → Except PyErr Rec0
  | .importS names => pure ⟨names, [], []⟩
  | .importFrom m names => pure ⟨names.map (fun n => m.getD "" ++ "." ++ n), [], []⟩
  | .classDef n d b => do
      let ms ← methodsOf b
      pure ⟨[], [⟨n, d, ms⟩], []⟩
  | .funcDef n d a r _ =>
      if isClassDefOpt p then pure ⟨[], [], []⟩
      else do
        let fi ← funcInfoOf n d a r
        pure ⟨[], [], [fi]⟩
  | _ => pure ⟨[], [], []⟩

/-- Statement children of a node, as iter_child_nodes presents them
(restricted to statement children; expression children can never match
the isinstance tests of the loop). -/
def Stmt.children : Stmt → List Stmt
  | .classDef _ _ b => b
  | .funcDef _ _ _ _ b => b
  | .asyncFuncDef _ _ _ _ b => b
  | .compound b => b
  | _ => []

mutual
/-- Node count of a statement subtree. -/
def stmtSize : Stmt → Nat
  | .importS _ => 1
  | .importFrom _ _ => 1
  | .classDef _ _ b => 1 + stmtsSize b
  | .funcDef _ _ _ _ b => 1 + stmtsSize b
  | .asyncFuncDef _ _ _ _ b => 1 + stmtsSize b
  | .simple => 1
  | .compound b => 1 + stmtsSize b

/-- Node count of a statement list. -/
def stmtsSize : List Stmt → Nat
  | [] => 0
  | s :: r => stmtSize s + stmtsSize r
end

/-- A walked node paired with its recorded parent (None for children of
the module root). -/
abbrev WPair := Option Stmt × Stmt

/-- Node count of a queue of pending pairs. -/
def qSize : List WPair → Nat
  | [] => 0
  | pr :: r => stmtSize pr.2 + qSize r

/-- Breadth first traversal with an explicit queue, exactly as ast.walk
pops from the front of its deque and appends children at the back.
The fuel argument only serves structural termination; walkModule
supplies the node count of the tree, which is enough fuel to pop every
node (each pop consumes one node of the count). -/
def walkGo : Nat → List WPair → List WPair
  | _, [] => []
  | 0, _ :: _ => []
  | n + 1, (p, s) :: rest =>
      (p, s) :: walkGo n (rest ++ s.children.map (fun c => (some s, c)))

/-- ast.walk over the module: the module node itself matches none of
the isinstance tests, so the traversal is taken from its children, each
with parent recorded as the module (read back as None by the parent
test). -/
def walkModule (m : List Stmt) : List WPair :=
  walkGo (qSize (m.map (fun s => ((none : Option Stmt), s)))) (m.map (fun s => ((none : Option Stmt), s)))

/-- Concatenation of two accumulator states, in order. -/
def mergeR (a b : Rec0) : Rec0 :=
  ⟨a.imports ++ b.imports, a.classes ++ b.classes, a.functions ++ b.functions⟩

/-- The extraction loop over the walked nodes: contributions are
appended in walk order, and a raised error aborts the loop with no
record produced. -/
def parseGo : List WPair → Except PyErr Rec0
  | [] => pure ⟨[], [], []⟩
  | (p, s) :: rest => do
      let c ← stepC p s
      let r ← parseGo rest
      pure (mergeR c r)

/-- Extraction over a parsed module. -/
def parseTree (m : List Stmt) : Except PyErr Rec0 :=
  parseGo (walkModule m)

/-- parse_file_structure: line count plus the three extracted lists. -/
def parse_file_structure (linesOfCode : Nat) (m : List Stmt) :
    Except PyErr StructuralRecord :=
  match parseTree m with
  | .error e => .error e
  | .ok r => .ok ⟨linesOfCode, r.imports, r.classes, r.functions⟩

/-- Single quotes around a name, as the f-strings of the report
functions produce. -/
def quoted (s : String) : String := "\x27" ++ s ++ "\x27"

/-- has_type_annotations: every argument annotated and the return
annotated. -/
def has_type_annotations (f : FunctionInfo) : Bool :=
  f.args.all (fun a => a.annot.isSome) && f.returns.isSome

/-- The missing_annotations list built by check_type_annotations:
standalone functions first, then methods class by class, each entry
rendered with the f-strings of the source. -/
def missingAnnotations (d : StructuralRecord) : List String :=
  (d.functions.filter (fun f => !has_type_annotations f)).map
      (fun f => "Function " ++ quoted f.name)
    ++ d.classes.flatMap (fun c =>
        (c.methods.filter (fun m => !has_type_annotations m)).map
          (fun m => "Method " ++ quoted m.name ++ " in class " ++ quoted c.name))

/-- check_type_annotations: the report section string. -/
def check_type_annotations (d : StructuralRecord) : String :=
  let missing := missingAnnotations d
  if missing.isEmpty then "All functions and methods have type annotations."
  else "Missing Type Annotations:\n"
    ++ String.intercalate "\n" (missing.map (fun i => "- " ++ i))

/-- One docstring line for a class. -/
def classDocLine (c : ClassInfo) : String :=
  match c.docstring with
  | some ds => "Class " ++ quoted c.name ++ ": " ++ ds
  | none => "Class " ++ quoted c.name ++ ": DocString not found"

/-- One docstring line for a method of a named class. -/
def methodDocLine (cname : String) (m : FunctionInfo) : String :=
  match m.docstring with
  | some ds => "Method " ++ quoted m.name ++ " in class " ++ quoted cname ++ ": " ++ ds
  | none => "Method " ++ quoted m.name ++ " in class " ++ quoted cname ++ ": DocString not found"

/-- One docstring line for a standalone function. -/
def funcDocLine (f : FunctionInfo) : String :=
  match f.docstring with
  | some ds => "Function " ++ quoted f.name ++ ": " ++ ds
  | none => "Function " ++ quoted f.name ++ ": DocString not found"

/-- get_docstring_report: class line followed by its method lines, then
standalone function lines, joined with blank lines. -/
def get_docstring_report (d : StructuralRecord) : String :=
  String.intercalate "\n\n"
    (d.classes.flatMap (fun c => classDocLine c :: c.methods.map (methodDocLine c.name))
      ++ d.functions.map funcDocLine)

/-- Ascii uppercase letter, matching the regex class with A to Z. -/
def isUpperAZ (c : Char) : Bool := decide (65 ≤ c.toNat ∧ c.toNat ≤ 90)

/-- Ascii lowercase letter, matching the regex class with a to z. -/
def isLowerAZ (c : Char) : Bool := decide (97 ≤ c.toNat ∧ c.toNat ≤ 122)

/-- Ascii digit. -/
def isDigit09 (c : Char) : Bool := decide (48 ≤ c.toNat ∧ c.toNat ≤ 57)

/-- Underscore. -/
def isUnders (c : Char) : Bool := decide (c.toNat = 95)

/-- First character class of the class name regex. -/
def classFirst (c : Char) : Bool := isUpperAZ c

/-- Body character class of the class name regex. -/
def classRest (c : Char) : Bool := isUpperAZ c || isLowerAZ c || isDigit09 c

/-- First character class of the function name regex. -/
def funcFirst (c : Char) : Bool := isLowerAZ c || isUnders c

/-- Body character class of the function name regex. -/
def funcRest (c : Char) : Bool := isLowerAZ c || isDigit09 c || isUnders c

/-- A first plus rest star pattern over a whole character list. -/
def coreMatch (first rest : Char → Bool) : List Char → Bool
  | [] => false
  | c :: cs => first c && cs.all rest

/-- Semantics of re.match with an anchored pattern of shape caret,
first class, rest class star, dollar: the dollar of the re module also
matches just before one trailing newline. -/
def pyMatchAnchored (first rest : Char → Bool) (s : String) : Bool :=
  coreMatch first rest s.data ||
    (match s.data.getLast? with
     | some c => decide (c.toNat = 10) && coreMatch first rest s.data.dropLast
     | none => false)

/-- The class name convention regex of the source. -/
def classNamePat (s : String) : Bool := pyMatchAnchored classFirst classRest s

/-- The function and method name convention regex of the source. -/
def funcNamePat (s : String) : Bool := pyMatchAnchored funcFirst funcRest s

/-- Issue line for a class name. -/
def classIssueLine (c : ClassInfo) : String :=
  "Class " ++ quoted c.name ++ " does not follow CamelCase"

/-- Issue line for a method name in a named class. -/
def methodIssueLine (cname : String) (m : FunctionInfo) : String :=
  "Method " ++ quoted m.name ++ " in class " ++ quoted cname ++ " does not follow snake_case"

/-- Issue line for a standalone function name. -/
def funcIssueLine (f : FunctionInfo) : String :=
  "Function " ++ quoted f.name ++ " does not follow snake_case"

/-- The class_issues list of check_naming_conventions, in class order. -/
def classIssues (d : StructuralRecord) : List String :=
  (d.classes.filter (fun c => !classNamePat c.name)).map classIssueLine

/-- The func_issues list of check_naming_conventions: method issues in
class then body order, followed by standalone function issues. -/
def funcIssues (d : StructuralRecord) : List String :=
  d.classes.flatMap (fun c =>
      (c.methods.filter (fun m => !funcNamePat m.name)).map (methodIssueLine c.name))
    ++ (d.functions.filter (fun f => !funcNamePat f.name)).map funcIssueLine

/-- check_naming_conventions: confirmation line when both issue lists
are empty, otherwise the grouped report with the Classes and the
Functions and Methods subsections. -/
def check_naming_conventions (d : StructuralRecord) : String :=
  if (classIssues d).isEmpty && (funcIssues d).isEmpty then
    "All names adhere to the specified naming convention."
  else
    "Naming Convention Issues:\n" ++ String.intercalate "\n"
      ((if (classIssues d).isEmpty then []
        else "Classes:" :: (classIssues d).map (fun i => "- " ++ i))
        ++ (if (funcIssues d).isEmpty then []
            else "Functions/Methods:" :: (funcIssues d).map (fun i => "- " ++ i)))

/-- generate_file_structure_report: line count, imports, classes and
functions sections, with the fallback lines for empty lists. -/
def generate_file_structure_report (d : StructuralRecord) : String :=
  String.intercalate "\n"
    (["Total lines of code: " ++ toString d.lines_of_code]
      ++ (if d.imports.isEmpty then ["No imports found."]
          else "Imports:" :: d.imports.map (fun i => "- " ++ i))
      ++ (if d.classes.isEmpty then ["No classes found."]
          else "Classes:" :: d.classes.map (fun c => "- " ++ c.name))
      ++ (if d.functions.isEmpty then ["No standalone functions found."]
          else "Functions:" :: d.functions.map (fun f => "- " ++ f.name)))

/-- generate_full_report: the four sections with their headings joined
by newlines. -/
def generate_full_report (d : StructuralRecord) : String :=
  String.intercalate "\n"
    ["File Structure", generate_file_structure_report d,
     "\nDoc Strings", get_docstring_report d,
     "\nType Annotation Check", check_type_annotations d,
     "\nNaming Convention Check", check_naming_conventions d]

/-- Errors that abort a run after the input file was found: a syntax
error raised by the external parser, or an AttributeError raised while
rendering annotations. -/
inductive RunError where
  | syntaxError (msg : String)
  | attributeError
  deriving DecidableEq

/-- The run after reading the file: the outcome of the external
ast.parse call is passed in as an Except value; a parse failure
propagates and nothing further runs, otherwise extraction and report
generation follow in sequence. -/
def run_pipeline (parsed : Except String (List Stmt)) (linesOfCode : Nat) :
    Except RunError String :=
  match parsed with
  | .error m => .error (.syntaxError m)
  | .ok tree =>
      match parse_file_structure linesOfCode tree with
      | .error _ => .error .attributeError
      | .ok data => .ok (generate_full_report data)

/-- The observable file output of main: the report file name and its
content, written only when the pipeline succeeded; any raised error
leaves no output file. -/
def main_output (parsed : Except String (List Stmt)) (linesOfCode : Nat)
    (filename : String) : Option (String × String) :=
  match run_pipeline parsed linesOfCode with
  | .error _ => none
  | .ok report => some ("style_report_" ++ filename ++ ".txt", report)

/-- Import strings a single top level statement contributes, in source
order (used to state the ordering claim). -/
def importStringsOf : Stmt → List String
  | .importS names => names
  | .importFrom m names => names.map (fun n => m.getD "" ++ "." ++ n)
  | _ => []

/-- Names of the function definitions that are direct children of a
class body, in body order. -/
def bodyFuncNames : List Stmt → List String
  | [] => []
  | .funcDef n _ _ _ _ :: r => n :: bodyFuncNames r
  | _ :: r => bodyFuncNames r

/-- Source order signature of a top level class statement: its name and
its method names in body order. -/
def srcClassSig : Stmt → Option (String × List String)
  | .classDef n _ b => some (n, bodyFuncNames b)
  | _ => none

/-- Source order signature of a top level function statement: its name
and its parameter names in declared order. -/
def srcFunSig : Stmt → Option (String × List String)
  | .funcDef n _ args _ _ => some (n, args.map Arg.arg)
  | _ => none

mutual
/-- True when no statement in the subtree is an import, a class
definition or a function definition, so walking the subtree
contributes nothing to any accumulator. -/
def silentSub : Stmt → Bool
  | .importS _ => false
  | .importFrom _ _ => false
  | .classDef _ _ _ => false
  | .funcDef _ _ _ _ _ => false
  | .asyncFuncDef _ _ _ _ b => silentSubs b
  | .simple => true
  | .compound b => silentSubs b

/-- List version of silentSub. -/
def silentSubs : List Stmt → Bool
  | [] => true
  | s :: r => silentSub s && silentSubs r
end

/-- A pending walk pair that can never contribute, hereditarily: either
a method node (function definition whose recorded parent is a class,
which the extraction loop skips) whose body is silent, or a node whose
whole subtree is silent. -/
def pairHS : WPair → Bool
  | (p, .funcDef _ _ _ _ b) => isClassDefOpt p && silentSubs b
  | (_, s) => silentSub s

/-- Class body shape of a flat module: methods with silent bodies or
silent statements. -/
def flatBody : List Stmt → Bool
  | [] => true
  | .funcDef _ _ _ _ bd :: r => silentSubs bd && flatBody r
  | s :: r => silentSub s && flatBody r

/-- A top level statement of a flat module: imports, classes whose
bodies hold methods with silent bodies or silent statements, functions
with silent bodies, and silent statements.  Flat modules have no
declarations nested beyond the one method level. -/
def flatTop : Stmt → Bool
  | .importS _ => true
  | .importFrom _ _ => true
  | .classDef _ _ b => flatBody b
  | .funcDef _ _ _ _ b => silentSubs b
  | .asyncFuncDef _ _ _ _ b => silentSubs b
  | .simple => true
  | .compound b => silentSubs b

/-- A module with no nesting beyond methods directly inside classes. -/
def flatModule (m : List Stmt) : Bool := m.all flatTop

/-- Contributions of the top level statements alone, in source order:
the reference value the flat ordering theorem compares extraction
against. -/
def flatContrib : List Stmt → Except PyErr Rec0
  | [] => pure ⟨[], [], []⟩
  | s :: r => do
      let c ← stepC none s
      let rest ← flatContrib r
      pure (mergeR c rest)

mutual
/-- Class names of a subtree in document order (the order of the
declarations in the source text). -/
def srcClassNames : Stmt → List String
  | .classDef n _ b => n :: srcClassNamesL b
  | .funcDef _ _ _ _ b => srcClassNamesL b
  | .asyncFuncDef _ _ _ _ b => srcClassNamesL b
  | .compound b => srcClassNamesL b
  | _ => []

/-- List version of srcClassNames. -/
def srcClassNamesL : List Stmt → List String
  | [] => []
  | s :: r => srcClassNames s ++ srcClassNamesL r
end

mutual
/-- Function definition names of a subtree in document order. -/
def funcNamesUnder : Stmt → List String
  | .classDef _ _ b => funcNamesUnderL b
  | .funcDef n _ _ _ b => n :: funcNamesUnderL b
  | .asyncFuncDef _ _ _ _ b => funcNamesUnderL b
  | .compound b => funcNamesUnderL b
  | _ => []

/-- List version of funcNamesUnder. -/
def funcNamesUnderL : List Stmt → List String
  | [] => []
  | s :: r => funcNamesUnder s ++ funcNamesUnderL r
end

/-- True exactly on plain (non async) function definitions. -/
def isSyncFuncDef : Stmt → Bool
  | .funcDef _ _ _ _ _ => true
  | _ => false

/-- The function record a statement would produce, when it is a plain
function definition. -/
def stmtFuncInfo : Stmt → Option (Except PyErr FunctionInfo)
  | .funcDef n d a r _ => some (funcInfoOf n d a r)
  | _ => none

/-- The syntax tree of src/Assignment 2/test.py, the end to end
scenario input of section 8 of the spec. -/
def examplePyTree : List Stmt :=
  [Stmt.importS ["os"],
   Stmt.importS ["sys"],
   Stmt.importFrom (some "math") ["pi", "sqrt"],
   Stmt.classDef "ExampleClass" (some "This is an example class with a docstring.")
     [Stmt.simple,
      Stmt.funcDef "__init__" (some "Initialize with a value.")
        [⟨"self", none⟩, ⟨"value", some (Expr.name "int")⟩] none
        [Stmt.simple, Stmt.simple],
      Stmt.funcDef "multiply" (some "Multiply value by a factor.")
        [⟨"self", none⟩, ⟨"factor", some (Expr.name "int")⟩] (some (Expr.name "int"))
        [Stmt.simple, Stmt.simple],
      Stmt.funcDef "no_annotation_method" none
        [⟨"self", none⟩] none
        [Stmt.simple]],
   Stmt.funcDef "standalone_function" (some "Calculate the square root of x.")
     [⟨"x", some (Expr.name "float")⟩] (some (Expr.name "float"))
     [Stmt.simple, Stmt.simple],
   Stmt.funcDef "another_function_without_annotation" none [] none
     [Stmt.simple]]

/-- The structural record extraction produces for examplePyTree. -/
def examplePyRecord : StructuralRecord :=
  ⟨25,
   ["os", "sys", "math.pi", "math.sqrt"],
   [⟨"ExampleClass", some "This is an example class with a docstring.",
     [⟨"__init__", some "Initialize with a value.",
       [⟨"self", none⟩, ⟨"value", some "int"⟩], none⟩,
      ⟨"multiply", some "Multiply value by a factor.",
       [⟨"self", none⟩, ⟨"factor", some "int"⟩], some "int"⟩,
      ⟨"no_annotation_method", none, [⟨"self", none⟩], none⟩]⟩],
   [⟨"standalone_function", some "Calculate the square root of x.",
     [⟨"x", some "float"⟩], some "float"⟩,
    ⟨"another_function_without_annotation", none, [], none⟩]⟩

/-- A module with a class nested inside another class followed by a
further top level class: in the source text the inner class B is
declared before the later class C. -/
def nestedClassTree : List Stmt :=
  [Stmt.classDef "A" none [Stmt.classDef "B" none []],
   Stmt.classDef "C" none []]

/-- A module with a function g nested inside a method m of a class C:
g has the class C among its ancestors but not as its direct parent. -/
def nestedFuncTree : List Stmt :=
  [Stmt.classDef "C" none
    [Stmt.funcDef "m" none [⟨"self", none⟩] none
      [Stmt.funcDef "g" none [] none [Stmt.simple]]]]

/-- The report produced for an empty module with zero counted lines. -/
def emptyModuleReport : String :=
  ((run_pipeline (.ok []) 0).toOption).getD ""

theorem okBind {α β : Type} (a : α) (f : α → Except PyErr β) :
    ((Except.ok a : Except PyErr α) >>= f) = f a := rfl

theorem errBind {α β : Type} (e : PyErr) (f : α → Except PyErr β) :
    ((Except.error e : Except PyErr α) >>= f) = Except.error e := rfl

theorem pureOk {α : Type} (a : α) : (pure a : Except PyErr α) = Except.ok a := rfl

/-- What a successful single step contributes: any function record in
its functions list comes from a plain function definition whose
recorded parent is not a class, and any class record comes from a class
definition whose methods list extraction succeeded. -/
theorem stepC_origin (p : Option Stmt) (s : Stmt) (c : Rec0)
    (h : stepC p s = .ok c) :
    (∀ fi ∈ c.functions, ∃ n d a rt b, s = .funcDef n d a rt b ∧
        isClassDefOpt p = false ∧ funcInfoOf n d a rt = .ok fi) ∧
    (∀ cl ∈ c.classes, ∃ n d b, s = .classDef n d b ∧
        cl.name = n ∧ cl.docstring = d ∧ methodsOf b = .ok cl.methods) := by
  match s with
  | .importS names =>
      rw [stepC, pureOk] at h
      injection h with h'
      subst h'
      exact ⟨by simp, by simp⟩
  | .importFrom m names =>
      rw [stepC, pureOk] at h
      injection h with h'
      subst h'
      exact ⟨by simp, by simp⟩
  | .classDef n d b =>
      rw [stepC] at h
      cases hm : methodsOf b with
      | error e => rw [hm, errBind] at h; exact Except.noConfusion h
      | ok ms =>
          rw [hm, okBind, pureOk] at h
          injection h with h'
          subst h'
          refine ⟨by simp, ?_⟩
          intro cl hcl
          simp only [List.mem_singleton] at hcl
          subst hcl
          exact ⟨n, d, b, rfl, rfl, rfl, hm⟩
  | .funcDef n d a rt b =>
      rw [stepC] at h
      cases hpv : isClassDefOpt p with
      | true =>
          rw [if_pos hpv, pureOk] at h
          injection h with h'
          subst h'
          exact ⟨by simp, by simp⟩
      | false =>
          rw [if_neg (by simp [hpv])] at h
          cases hf : funcInfoOf n d a rt with
          | error e => rw [hf, errBind] at h; exact Except.noConfusion h
          | ok fi0 =>
              rw [hf, okBind, pureOk] at h
              injection h with h'
              subst h'
              refine ⟨?_, by simp⟩
              intro fi hfi
              simp only [List.mem_singleton] at hfi
              subst hfi
              exact ⟨n, d, a, rt, b, rfl, rfl, hf⟩
  | .asyncFuncDef n d a rt b =>
      have h2 : (Except.ok (⟨[], [], []⟩ : Rec0) : Except PyErr Rec0) = Except.ok c := h
      injection h2 with h'
      subst h'
      exact ⟨by simp, by simp⟩
  | .simple =>
      have h2 : (Except.ok (⟨[], [], []⟩ : Rec0) : Except PyErr Rec0) = Except.ok c := h
      injection h2 with h'
      subst h'
      exact ⟨by simp, by simp⟩
  | .compound b =>
      have h2 : (Except.ok (⟨[], [], []⟩ : Rec0) : Except PyErr Rec0) = Except.ok c := h
      injection h2 with h'
      subst h'
      exact ⟨by simp, by simp⟩

/-- Every method record a successful class body scan produces comes
from a plain function definition that is a direct member of the body. -/
theorem methodsOf_origin (b : List Stmt) (ms : List FunctionInfo)
    (h : methodsOf b = .ok ms) :
    ∀ fi ∈ ms, ∃ n d a rt bd, Stmt.funcDef n d a rt bd ∈ b ∧
      funcInfoOf n d a rt = .ok fi := by
  induction b generalizing ms with
  | nil =>
      rw [methodsOf, pureOk] at h
      injection h with h'
      subst h'
      simp
  | cons s rest ih =>
      match s with
      | .funcDef n d a rt bd =>
          rw [methodsOf] at h
          cases hf : funcInfoOf n d a rt with
          | error e => rw [hf, errBind] at h; exact Except.noConfusion h
          | ok fi0 =>
              rw [hf, okBind] at h
              cases hm : methodsOf rest with
              | error e => rw [hm, errBind] at h; exact Except.noConfusion h
              | ok ms' =>
                  rw [hm, okBind, pureOk] at h
                  injection h with h'
                  subst h'
                  intro fi hfi
                  rcases List.mem_cons.mp hfi with hfi | hfi
                  · subst hfi
                    exact ⟨n, d, a, rt, bd, List.mem_cons_self _ _, hf⟩
                  · obtain ⟨n2, d2, a2, rt2, bd2, hmem, hok⟩ := ih ms' hm fi hfi
                    exact ⟨n2, d2, a2, rt2, bd2, List.mem_cons_of_mem _ hmem, hok⟩
      | .importS names =>
          have h2 : methodsOf rest = .ok ms := h
          intro fi hfi
          obtain ⟨n2, d2, a2, rt2, bd2, hmem, hok⟩ := ih ms h2 fi hfi
          exact ⟨n2, d2, a2, rt2, bd2, List.mem_cons_of_mem _ hmem, hok⟩
      | .importFrom m names =>
          have h2 : methodsOf rest = .ok ms := h
          intro fi hfi
          obtain ⟨n2, d2, a2, rt2, bd2, hmem, hok⟩ := ih ms h2 fi hfi
          exact ⟨n2, d2, a2, rt2, bd2, List.mem_cons_of_mem _ hmem, hok⟩
      | .classDef n d bd =>
          have h2 : methodsOf rest = .ok ms := h
          intro fi hfi
          obtain ⟨n2, d2, a2, rt2, bd2, hmem, hok⟩ := ih ms h2 fi hfi
          exact ⟨n2, d2, a2, rt2, bd2, List.mem_cons_of_mem _ hmem, hok⟩
      | .asyncFuncDef n d a rt bd =>
          have h2 : methodsOf rest = .ok ms := h
          intro fi hfi
          obtain ⟨n2, d2, a2, rt2, bd2, hmem, hok⟩ := ih ms h2 fi hfi
          exact ⟨n2, d2, a2, rt2, bd2, List.mem_cons_of_mem _ hmem, hok⟩
      | .simple =>
          have h2 : methodsOf rest = .ok ms := h
          intro fi hfi
          obtain ⟨n2, d2, a2, rt2, bd2, hmem, hok⟩ := ih ms h2 fi hfi
          exact ⟨n2, d2, a2, rt2, bd2, List.mem_cons_of_mem _ hmem, hok⟩
      | .compound bd =>
          have h2 : methodsOf rest = .ok ms := h
          intro fi hfi
          obtain ⟨n2, d2, a2, rt2, bd2, hmem, hok⟩ := ih ms h2 fi hfi
          exact ⟨n2, d2, a2, rt2, bd2, List.mem_cons_of_mem _ hmem, hok⟩

/-- Every record in a successful run of the extraction loop originates
from a queue entry of the right shape. -/
theorem parseGo_origin (q : List WPair) (r : Rec0) (h : parseGo q = .ok r) :
    (∀ fi ∈ r.functions, ∃ p n d a rt b, (p, Stmt.funcDef n d a rt b) ∈ q ∧
        isClassDefOpt p = false ∧ funcInfoOf n d a rt = .ok fi) ∧
    (∀ cl ∈ r.classes, ∃ p n d b, (p, Stmt.classDef n d b) ∈ q ∧
        cl.name = n ∧ cl.docstring = d ∧ methodsOf b = .ok cl.methods) := by
  induction q generalizing r with
  | nil =>
      rw [parseGo, pureOk] at h
      injection h with h'
      subst h'
      exact ⟨by simp, by simp⟩
  | cons pr rest ih =>
      obtain ⟨p, s⟩ := pr
      rw [parseGo] at h
      cases hc : stepC p s with
      | error e => rw [hc, errBind] at h; exact Except.noConfusion h
      | ok c =>
          rw [hc, okBind] at h
          cases hr : parseGo rest with
          | error e => rw [hr, errBind] at h; exact Except.noConfusion h
          | ok r' =>
              rw [hr, okBind, pureOk] at h
              injection h with h'
              subst h'
              obtain ⟨ihf, ihc⟩ := ih r' hr
              obtain ⟨scf, scc⟩ := stepC_origin p s c hc
              constructor
              · intro fi hfi
                rcases List.mem_append.mp hfi with hfi | hfi
                · obtain ⟨n, d, a, rt, b, hs, hp, hok⟩ := scf fi hfi
                  subst hs
                  exact ⟨p, n, d, a, rt, b, List.mem_cons_self _ _, hp, hok⟩
                · obtain ⟨p2, n, d, a, rt, b, hmem, hp, hok⟩ := ihf fi hfi
                  exact ⟨p2, n, d, a, rt, b, List.mem_cons_of_mem _ hmem, hp, hok⟩
              · intro cl hcl
                rcases List.mem_append.mp hcl with hcl | hcl
                · obtain ⟨n, d, b, hs, h1, h2, h3⟩ := scc cl hcl
                  subst hs
                  exact ⟨p, n, d, b, List.mem_cons_self _ _, h1, h2, h3⟩
                · obtain ⟨p2, n, d, b, hmem, h1, h2, h3⟩ := ihc cl hcl
                  exact ⟨p2, n, d, b, List.mem_cons_of_mem _ hmem, h1, h2, h3⟩

theorem silentSubs_mem {l : List Stmt} (h : silentSubs l = true) :
    ∀ c ∈ l, silentSub c = true := by
  induction l with
  | nil => intro c hc; cases hc
  | cons s r ih =>
      rw [silentSubs, Bool.and_eq_true] at h
      intro c hc
      rcases List.mem_cons.mp hc with hc | hc
      · subst hc; exact h.1
      · exact ih h.2 c hc

theorem silentSub_stepC {s : Stmt} (h : silentSub s = true) (p : Option Stmt) :
    stepC p s = .ok ⟨[], [], []⟩ := by
  match s with
  | .importS names => exact absurd h (by rw [silentSub]; simp)
  | .importFrom m names => exact absurd h (by rw [silentSub]; simp)
  | .classDef n d b => exact absurd h (by rw [silentSub]; simp)
  | .funcDef n d a rt b => exact absurd h (by rw [silentSub]; simp)
  | .asyncFuncDef n d a rt b => rfl
  | .simple => rfl
  | .compound b => rfl

theorem silentSub_children {s : Stmt} (h : silentSub s = true) :
    silentSubs s.children = true := by
  match s with
  | .importS names => rfl
  | .importFrom m names => rfl
  | .classDef n d b => exact absurd h (by rw [silentSub]; simp)
  | .funcDef n d a rt b => exact absurd h (by rw [silentSub]; simp)
  | .asyncFuncDef n d a rt b => exact h
  | .simple => rfl
  | .compound b => exact h

theorem pairHS_of_silent {c : Stmt} (h : silentSub c = true) (q : Option Stmt) :
    pairHS (q, c) = true := by
  match c with
  | .importS names => exact absurd h (by rw [silentSub]; simp)
  | .importFrom m names => exact absurd h (by rw [silentSub]; simp)
  | .classDef n d b => exact absurd h (by rw [silentSub]; simp)
  | .funcDef n d a rt b => exact absurd h (by rw [silentSub]; simp)
  | .asyncFuncDef n d a rt b => exact h
  | .simple => rfl
  | .compound b => exact h

theorem pairHS_step {p : Option Stmt} {s : Stmt} (h : pairHS (p, s) = true) :
    stepC p s = .ok ⟨[], [], []⟩ := by
  match s with
  | .funcDef n d a rt b =>
      rw [pairHS, Bool.and_eq_true] at h
      rw [stepC, if_pos h.1, pureOk]
  | .importS names => exact silentSub_stepC h p
  | .importFrom m names => exact silentSub_stepC h p
  | .classDef n d b => exact silentSub_stepC h p
  | .asyncFuncDef n d a rt b => rfl
  | .simple => rfl
  | .compound b => rfl

theorem pairHS_children {p : Option Stmt} {s : Stmt} (h : pairHS (p, s) = true) :
    ∀ c ∈ s.children, pairHS (some s, c) = true := by
  match s with
  | .funcDef n d a rt b =>
      rw [pairHS, Bool.and_eq_true] at h
      intro c hc
      exact pairHS_of_silent (silentSubs_mem h.2 c hc) _
  | .importS names => intro c hc; cases hc
  | .importFrom m names => intro c hc; cases hc
  | .classDef n d b =>
      exact Bool.noConfusion (show false = true from h)
  | .asyncFuncDef n d a rt b =>
      intro c hc
      exact pairHS_of_silent (silentSubs_mem h c hc) _
  | .simple => intro c hc; cases hc
  | .compound b =>
      intro c hc
      exact pairHS_of_silent (silentSubs_mem h c hc) _

theorem parseGo_walkGo_silent (fuel : Nat) :
    ∀ q : List WPair, (∀ pr ∈ q, pairHS pr = true) →
      parseGo (walkGo fuel q) = .ok ⟨[], [], []⟩ := by
  induction fuel with
  | zero =>
      intro q hq
      cases q with
      | nil => rfl
      | cons pr rest => rfl
  | succ n ih =>
      intro q hq
      cases q with
      | nil => rfl
      | cons pr rest =>
          obtain ⟨p, s⟩ := pr
          rw [walkGo, parseGo, pairHS_step (hq (p, s) (List.mem_cons_self _ _)), okBind]
          rw [ih (rest ++ s.children.map (fun c => (some s, c))) ?_, okBind, pureOk]
          · rfl
          · intro pr hpr
            rcases List.mem_append.mp hpr with hpr | hpr
            · exact hq pr (List.mem_cons_of_mem _ hpr)
            · obtain ⟨c, hc, hceq⟩ := List.mem_map.mp hpr
              subst hceq
              exact pairHS_children (hq (p, s) (List.mem_cons_self _ _)) c hc

theorem flatBody_pairHS {b : List Stmt} (hb : flatBody b = true)
    {p : Option Stmt} (hp : isClassDefOpt p = true) :
    ∀ c ∈ b, pairHS (p, c) = true := by
  induction b with
  | nil => intro c hc; cases hc
  | cons s r ih =>
      intro c hc
      match s with
      | .funcDef n d a rt bd =>
          rw [flatBody, Bool.and_eq_true] at hb
          rcases List.mem_cons.mp hc with hc | hc
          · subst hc
            rw [pairHS, hp, Bool.true_and]
            exact hb.1
          · exact ih hb.2 c hc
      | .importS names =>
          have hb2 : (silentSub (Stmt.importS names) && flatBody r) = true := hb
          rw [Bool.and_eq_true] at hb2
          rcases List.mem_cons.mp hc with hc | hc
          · subst hc; exact pairHS_of_silent hb2.1 _
          · exact ih hb2.2 c hc
      | .importFrom m names =>
          have hb2 : (silentSub (Stmt.importFrom m names) && flatBody r) = true := hb
          rw [Bool.and_eq_true] at hb2
          rcases List.mem_cons.mp hc with hc | hc
          · subst hc; exact pairHS_of_silent hb2.1 _
          · exact ih hb2.2 c hc
      | .classDef n d bd =>
          have hb2 : (silentSub (Stmt.classDef n d bd) && flatBody r) = true := hb
          rw [Bool.and_eq_true] at hb2
          rcases List.mem_cons.mp hc with hc | hc
          · subst hc; exact pairHS_of_silent hb2.1 _
          · exact ih hb2.2 c hc
      | .asyncFuncDef n d a rt bd =>
          have hb2 : (silentSub (Stmt.asyncFuncDef n d a rt bd) && flatBody r) = true := hb
          rw [Bool.and_eq_true] at hb2
          rcases List.mem_cons.mp hc with hc | hc
          · subst hc; exact pairHS_of_silent hb2.1 _
          · exact ih hb2.2 c hc
      | .simple =>
          have hb2 : (silentSub Stmt.simple && flatBody r) = true := hb
          rw [Bool.and_eq_true] at hb2
          rcases List.mem_cons.mp hc with hc | hc
          · subst hc; exact pairHS_of_silent hb2.1 _
          · exact ih hb2.2 c hc
      | .compound bd =>
          have hb2 : (silentSub (Stmt.compound bd) && flatBody r) = true := hb
          rw [Bool.and_eq_true] at hb2
          rcases List.mem_cons.mp hc with hc | hc
          · subst hc; exact pairHS_of_silent hb2.1 _
          · exact ih hb2.2 c hc

theorem flatTop_children {s : Stmt} (h : flatTop s = true) :
    ∀ c ∈ s.children, pairHS (some s, c) = true := by
  match s with
  | .importS names => intro c hc; cases hc
  | .importFrom m names => intro c hc; cases hc
  | .classDef n d b => exact flatBody_pairHS h rfl
  | .funcDef n d a rt b =>
      intro c hc
      exact pairHS_of_silent (silentSubs_mem h c hc) _
  | .asyncFuncDef n d a rt b =>
      intro c hc
      exact pairHS_of_silent (silentSubs_mem h c hc) _
  | .simple => intro c hc; cases hc
  | .compound b =>
      intro c hc
      exact pairHS_of_silent (silentSubs_mem h c hc) _

theorem parseFlat (ms : List Stmt) :
    ∀ (fuel : Nat) (extra : List WPair),
      (∀ s ∈ ms, flatTop s = true) → (∀ pr ∈ extra, pairHS pr = true) →
      ms.length ≤ fuel →
      parseGo (walkGo fuel (ms.map (fun s => ((none : Option Stmt), s)) ++ extra))
        = flatContrib ms := by
  induction ms with
  | nil =>
      intro fuel extra hms hex hlen
      exact parseGo_walkGo_silent fuel extra hex
  | cons s rest ih =>
      intro fuel extra hms hex hlen
      cases fuel with
      | zero => exact absurd hlen (by simp)
      | succ n =>
          have hstep :
              walkGo (n + 1) (((s :: rest).map (fun s => ((none : Option Stmt), s))) ++ extra)
                = ((none : Option Stmt), s) ::
                  walkGo n ((rest.map (fun s => ((none : Option Stmt), s)) ++ extra)
                    ++ s.children.map (fun c => (some s, c))) := by
            rw [List.map_cons, List.cons_append, walkGo]
          rw [hstep, List.append_assoc]
          rw [parseGo]
          rw [ih n (extra ++ s.children.map (fun c => (some s, c)))
            (fun t ht => hms t (List.mem_cons_of_mem _ ht))
            ?_ (by simpa using Nat.le_of_succ_le_succ hlen)]
          · rw [flatContrib]
          · intro pr hpr
            rcases List.mem_append.mp hpr with hpr | hpr
            · exact hex pr hpr
            · obtain ⟨c, hc, hceq⟩ := List.mem_map.mp hpr
              subst hceq
              exact flatTop_children (hms s (List.mem_cons_self _ _)) c hc

theorem qSize_map_none (m : List Stmt) :
    qSize (m.map (fun s => ((none : Option Stmt), s))) = stmtsSize m := by
  induction m with
  | nil => rfl
  | cons s r ih => rw [List.map_cons, qSize, stmtsSize, ih]

theorem one_le_stmtSize (s : Stmt) : 1 ≤ stmtSize s := by
  match s with
  | .importS names => exact Nat.le_refl 1
  | .importFrom m names => exact Nat.le_refl 1
  | .classDef n d b => rw [stmtSize]; exact Nat.le_add_right 1 _
  | .funcDef n d a rt b => rw [stmtSize]; exact Nat.le_add_right 1 _
  | .asyncFuncDef n d a rt b => rw [stmtSize]; exact Nat.le_add_right 1 _
  | .simple => exact Nat.le_refl 1
  | .compound b => rw [stmtSize]; exact Nat.le_add_right 1 _

theorem length_le_stmtsSize (m : List Stmt) : m.length ≤ stmtsSize m := by
  induction m with
  | nil => exact Nat.le_refl 0
  | cons s r ih =>
      rw [List.length_cons, stmtsSize]
      calc r.length + 1 ≤ stmtsSize r + 1 := Nat.succ_le_succ ih
        _ ≤ stmtSize s + stmtsSize r := by
            rw [Nat.add_comm (stmtSize s)]
            exact Nat.add_le_add_left (one_le_stmtSize s) _

/-- On a flat module the whole extraction coincides with the source
order contributions of the top level statements alone. -/
theorem parseTree_flat (m : List Stmt) (hm : flatModule m = true) :
    parseTree m = flatContrib m := by
  rw [parseTree, walkModule]
  have h := parseFlat m
    (qSize (m.map (fun s => ((none : Option Stmt), s)))) []
    (fun s hs => by
      rw [flatModule, List.all_eq_true] at hm
      exact hm s hs)
    (fun pr hpr => by cases hpr)
    (by rw [qSize_map_none]; exact length_le_stmtsSize m)
  rw [List.append_nil] at h
  exact h

theorem argInfo_name (a : Arg) (p : ParamInfo) (h : argInfo a = .ok p) :
    p.name = a.arg := by
  rw [argInfo] at h
  cases han : annotation_to_string a.annot with
  | error e => rw [han, errBind] at h; exact Except.noConfusion h
  | ok an =>
      rw [han, okBind, pureOk] at h
      injection h with h'
      subst h'
      rfl

theorem argInfos_names (a : List Arg) (ps : List ParamInfo)
    (h : argInfos a = .ok ps) : ps.map ParamInfo.name = a.map Arg.arg := by
  induction a generalizing ps with
  | nil =>
      rw [argInfos, pureOk] at h
      injection h with h'
      subst h'
      rfl
  | cons x r ih =>
      rw [argInfos] at h
      cases hx : argInfo x with
      | error e => rw [hx, errBind] at h; exact Except.noConfusion h
      | ok p =>
          rw [hx, okBind] at h
          cases hr : argInfos r with
          | error e => rw [hr, errBind] at h; exact Except.noConfusion h
          | ok ps' =>
              rw [hr, okBind, pureOk] at h
              injection h with h'
              subst h'
              rw [List.map_cons, List.map_cons, argInfo_name x p hx, ih ps' hr]

theorem funcInfoOf_fields (n : String) (d : Option String) (a : List Arg)
    (rt : Option Expr) (fi : FunctionInfo) (h : funcInfoOf n d a rt = .ok fi) :
    fi.name = n ∧ fi.docstring = d ∧ fi.args.map ParamInfo.name = a.map Arg.arg := by
  rw [funcInfoOf] at h
  cases hps : argInfos a with
  | error e => rw [hps, errBind] at h; exact Except.noConfusion h
  | ok ps =>
      rw [hps, okBind] at h
      cases hrs : annotation_to_string rt with
      | error e => rw [hrs, errBind] at h; exact Except.noConfusion h
      | ok rs =>
          rw [hrs, okBind, pureOk] at h
          injection h with h'
          subst h'
          exact ⟨rfl, rfl, argInfos_names a ps hps⟩

theorem methodsOf_names (b : List Stmt) (ms : List FunctionInfo)
    (h : methodsOf b = .ok ms) : ms.map FunctionInfo.name = bodyFuncNames b := by
  induction b generalizing ms with
  | nil =>
      rw [methodsOf, pureOk] at h
      injection h with h'
      subst h'
      rfl
  | cons s rest ih =>
      match s with
      | .funcDef n d a rt bd =>
          rw [methodsOf] at h
          cases hf : funcInfoOf n d a rt with
          | error e => rw [hf, errBind] at h; exact Except.noConfusion h
          | ok fi0 =>
              rw [hf, okBind] at h
              cases hm : methodsOf rest with
              | error e => rw [hm, errBind] at h; exact Except.noConfusion h
              | ok ms' =>
                  rw [hm, okBind, pureOk] at h
                  injection h with h'
                  subst h'
                  show fi0.name :: ms'.map FunctionInfo.name = n :: bodyFuncNames rest
                  rw [(funcInfoOf_fields n d a rt fi0 hf).1, ih ms' hm]
      | .importS names =>
          exact ih ms h
      | .importFrom m names =>
          exact ih ms h
      | .classDef n d bd =>
          exact ih ms h
      | .asyncFuncDef n d a rt bd =>
          exact ih ms h
      | .simple =>
          exact ih ms h
      | .compound bd =>
          exact ih ms h

/-- On success, the source order contributions of the top level
statements give the imports, the class signatures and the function
signatures exactly in the order the declarations appear. -/
theorem flatContrib_ok (m : List Stmt) (r : Rec0) (h : flatContrib m = .ok r) :
    r.imports = m.flatMap importStringsOf ∧
    r.classes.map (fun c => (c.name, c.methods.map FunctionInfo.name))
      = m.filterMap srcClassSig ∧
    r.functions.map (fun f => (f.name, f.args.map ParamInfo.name))
      = m.filterMap srcFunSig := by
  induction m generalizing r with
  | nil =>
      rw [flatContrib, pureOk] at h
      injection h with h'
      subst h'
      exact ⟨rfl, rfl, rfl⟩
  | cons s rest ih =>
      rw [flatContrib] at h
      cases hc : stepC none s with
      | error e => rw [hc, errBind] at h; exact Except.noConfusion h
      | ok c =>
          rw [hc, okBind] at h
          cases hr : flatContrib rest with
          | error e => rw [hr, errBind] at h; exact Except.noConfusion h
          | ok r' =>
              rw [hr, okBind, pureOk] at h
              injection h with h'
              subst h'
              obtain ⟨ih1, ih2, ih3⟩ := ih r' hr
              match s with
              | .importS names =>
                  have hc2 : (Except.ok (⟨names, [], []⟩ : Rec0) : Except PyErr Rec0)
                      = .ok c := hc
                  injection hc2 with hc3
                  subst hc3
                  exact ⟨congrArg (fun l => names ++ l) ih1, ih2, ih3⟩
              | .importFrom mo names =>
                  have hc2 : (Except.ok
                      (⟨names.map (fun n => mo.getD "" ++ "." ++ n), [], []⟩ : Rec0)
                      : Except PyErr Rec0) = .ok c := hc
                  injection hc2 with hc3
                  subst hc3
                  exact ⟨congrArg (fun l => names.map (fun n => mo.getD "" ++ "." ++ n) ++ l) ih1,
                    ih2, ih3⟩
              | .classDef n d b =>
                  rw [stepC] at hc
                  cases hm : methodsOf b with
                  | error e => rw [hm, errBind] at hc; exact Except.noConfusion hc
                  | ok ms =>
                      rw [hm, okBind, pureOk] at hc
                      injection hc with hc3
                      subst hc3
                      refine ⟨ih1, ?_, ih3⟩
                      show (n, ms.map FunctionInfo.name) ::
                          r'.classes.map (fun c => (c.name, c.methods.map FunctionInfo.name))
                        = (n, bodyFuncNames b) :: rest.filterMap srcClassSig
                      rw [methodsOf_names b ms hm, ih2]
              | .funcDef n d a rt b =>
                  have hc2 : (funcInfoOf n d a rt >>= fun fi =>
                      (pure ⟨[], [], [fi]⟩ : Except PyErr Rec0)) = .ok c := hc
                  cases hf : funcInfoOf n d a rt with
                  | error e => rw [hf, errBind] at hc2; exact Except.noConfusion hc2
                  | ok fi =>
                      rw [hf, okBind, pureOk] at hc2
                      injection hc2 with hc3
                      subst hc3
                      refine ⟨ih1, ih2, ?_⟩
                      show (fi.name, fi.args.map ParamInfo.name) ::
                          r'.functions.map (fun f => (f.name, f.args.map ParamInfo.name))
                        = (n, a.map Arg.arg) :: rest.filterMap srcFunSig
                      obtain ⟨hn, _, ha⟩ := funcInfoOf_fields n d a rt fi hf
                      rw [hn, ha, ih3]
              | .asyncFuncDef n d a rt b =>
                  have hc2 : (Except.ok (⟨[], [], []⟩ : Rec0) : Except PyErr Rec0) = .ok c := hc
                  injection hc2 with hc3
                  subst hc3
                  exact ⟨ih1, ih2, ih3⟩
              | .simple =>
                  have hc2 : (Except.ok (⟨[], [], []⟩ : Rec0) : Except PyErr Rec0) = .ok c := hc
                  injection hc2 with hc3
                  subst hc3
                  exact ⟨ih1, ih2, ih3⟩
              | .compound b =>
                  have hc2 : (Except.ok (⟨[], [], []⟩ : Rec0) : Except PyErr Rec0) = .ok c := hc
                  injection hc2 with hc3
                  subst hc3
                  exact ⟨ih1, ih2, ih3⟩

/-- C1, counterexample.  The claim says the type annotation report for
the section 8 scenario lists exactly no_annotation_method (qualified
with its class) and another_function_without_annotation.  On the code
the missing list also holds the methods named with two leading
underscores init and multiply, because the self parameter carries no
annotation and has_type_annotations checks every entry of args. -/
theorem C1_counterexample :
    parse_file_structure 25 examplePyTree = .ok examplePyRecord ∧
    ("Method " ++ quoted "multiply" ++ " in class " ++ quoted "ExampleClass")
      ∈ missingAnnotations examplePyRecord ∧
    missingAnnotations examplePyRecord =
      ["Function " ++ quoted "another_function_without_annotation",
       "Method " ++ quoted "__init__" ++ " in class " ++ quoted "ExampleClass",
       "Method " ++ quoted "multiply" ++ " in class " ++ quoted "ExampleClass",
       "Method " ++ quoted "no_annotation_method" ++ " in class " ++ quoted "ExampleClass"] ∧
    missingAnnotations examplePyRecord ≠
      ["Function " ++ quoted "another_function_without_annotation",
       "Method " ++ quoted "no_annotation_method" ++ " in class " ++ quoted "ExampleClass"] := by
  refine ⟨rfl, by decide, rfl, by decide⟩

/-- C1, amended.  For the section 8 scenario the type annotation report
lists exactly another_function_without_annotation and, qualified with
ExampleClass, the constructor, multiply and no_annotation_method, in
that order, and nothing else: every method is reported because its
self parameter has no annotation. -/
theorem C1_amended :
    parse_file_structure 25 examplePyTree = .ok examplePyRecord ∧
    check_type_annotations examplePyRecord =
      "Missing Type Annotations:\n- Function \x27another_function_without_annotation\x27\n- Method \x27__init__\x27 in class \x27ExampleClass\x27\n- Method \x27multiply\x27 in class \x27ExampleClass\x27\n- Method \x27no_annotation_method\x27 in class \x27ExampleClass\x27" := by
  refine ⟨rfl, rfl⟩

/-- C2, counterexample.  The claim says annotation_to_string never
raises and renders a multi level attribute such as a.b.c as absent.
On the code the attribute branch reads annotation.value.id, and for
a.b.c the value is itself an attribute node with no id field, so the
call raises AttributeError instead of returning absent. -/
theorem C2_counterexample :
    annotation_to_string
        (some (Expr.attribute (Expr.attribute (Expr.name "a") "b") "c"))
      = .error .attributeError ∧
    annotation_to_string
        (some (Expr.attribute (Expr.attribute (Expr.name "a") "b") "c"))
      ≠ .ok none :=
  ⟨rfl, fun h => Except.noConfusion h⟩

/-- C2, amended.  annotation_to_string renders a bare name, a one level
qualified name over a bare base, and a single argument plain index
subscript over bare names; every other shape is rendered as absent,
except that an attribute whose base is not a bare name, and a subscript
with a bare name base whose slice is not a plain index, raise
AttributeError rather than returning absent. -/
theorem C2_amended (a : Option Expr) :
    annotation_to_string a =
      if annotationSpecRaises a then .error .attributeError
      else .ok (annotationSpecRender a) := by
  match a with
  | none => rfl
  | some (.name i) => rfl
  | some (.attribute (.name b) t) => rfl
  | some (.attribute (.attribute v t2) t) => rfl
  | some (.attribute (.subscript v sl) t) => rfl
  | some (.attribute (.constantStr s2) t) => rfl
  | some (.attribute .constantOther t) => rfl
  | some (.attribute (.tupleE es) t) => rfl
  | some (.attribute (.binOp l r2) t) => rfl
  | some (.subscript (.name b) (.index (.name a2))) => rfl
  | some (.subscript (.name b) (.index (.attribute v t))) => rfl
  | some (.subscript (.name b) (.index (.subscript v sl))) => rfl
  | some (.subscript (.name b) (.index (.constantStr s2))) => rfl
  | some (.subscript (.name b) (.index .constantOther)) => rfl
  | some (.subscript (.name b) (.index (.tupleE es))) => rfl
  | some (.subscript (.name b) (.index (.binOp l r2))) => rfl
  | some (.subscript (.name b) .sliceKind) => rfl
  | some (.subscript (.attribute v t) sl) => rfl
  | some (.subscript (.subscript v sl2) sl) => rfl
  | some (.subscript (.constantStr s2) sl) => rfl
  | some (.subscript .constantOther sl) => rfl
  | some (.subscript (.tupleE es) sl) => rfl
  | some (.subscript (.binOp l r2) sl) => rfl
  | some (.constantStr s2) => rfl
  | some .constantOther => rfl
  | some (.tupleE es) => rfl
  | some (.binOp l r2) => rfl

/-- C3, counterexample.  The claim says a relative import with no
module name appends the bare string name with no leading dot.  On the
code the empty module string is still joined with a dot, producing a
string with a leading dot. -/
theorem C3_counterexample :
    parseTree [Stmt.importFrom none ["name"]] = .ok ⟨[".name"], [], []⟩ ∧
    (".name" : String) ≠ "name" :=
  ⟨rfl, by decide⟩

/-- C3, amended.  Import rendering in parse_file_structure: a plain
module import appends the module string unchanged; a from import with
a module appends the dotted string module.name; a relative from import
with no module appends dot followed by the name, with a leading dot. -/
theorem C3_amended (pkg n : String) :
    parseTree [Stmt.importS [pkg]] = .ok ⟨[pkg], [], []⟩ ∧
    parseTree [Stmt.importFrom (some pkg) [n]] = .ok ⟨[pkg ++ "." ++ n], [], []⟩ ∧
    parseTree [Stmt.importFrom none [n]] = .ok ⟨["." ++ n], [], []⟩ := by
  refine ⟨rfl, rfl, ?_⟩
  show parseTree [Stmt.importFrom none [n]] = .ok ⟨[("" ++ ".") ++ n], [], []⟩
  rfl

/-- C4, counterexample.  The claim says every record in functions has
no class declaration among its ancestors at any depth.  On the code
only the direct parent is tested, so a function g nested inside a
method m of a class C lands in functions even though the class C is
among its ancestors, as the document order function name listing of
the class statement shows. -/
theorem C4_counterexample :
    parseTree nestedFuncTree =
      .ok ⟨[], [⟨"C", none, [⟨"m", none, [⟨"self", none⟩], none⟩]⟩],
           [⟨"g", none, [], none⟩]⟩ ∧
    nestedFuncTree = [Stmt.classDef "C" none
        [Stmt.funcDef "m" none [⟨"self", none⟩] none
          [Stmt.funcDef "g" none [] none [Stmt.simple]]]] ∧
    "g" ∈ funcNamesUnder (Stmt.classDef "C" none
        [Stmt.funcDef "m" none [⟨"self", none⟩] none
          [Stmt.funcDef "g" none [] none [Stmt.simple]]]) := by
  refine ⟨rfl, rfl, by decide⟩

/-- C4, amended.  For every successful extraction, every record in
functions comes from a function declaration whose direct parent in the
walk is not a class declaration, and every method of a class record is
a function declaration that is a direct child of that class body. -/
theorem C4_amended (lc : Nat) (m : List Stmt) (d : StructuralRecord)
    (h : parse_file_structure lc m = .ok d) :
    (∀ fi ∈ d.functions, ∃ p n dd a rt b,
        (p, Stmt.funcDef n dd a rt b) ∈ walkModule m ∧
        isClassDefOpt p = false ∧ funcInfoOf n dd a rt = .ok fi) ∧
    (∀ cl ∈ d.classes, ∃ p n dd b,
        (p, Stmt.classDef n dd b) ∈ walkModule m ∧ cl.name = n ∧
        ∀ fi ∈ cl.methods, ∃ n2 d2 a2 rt2 b2,
          Stmt.funcDef n2 d2 a2 rt2 b2 ∈ b ∧ funcInfoOf n2 d2 a2 rt2 = .ok fi) := by
  rw [parse_file_structure] at h
  cases hp : parseTree m with
  | error e => rw [hp] at h; exact Except.noConfusion h
  | ok r =>
      rw [hp] at h
      have h2 : Except.ok (⟨lc, r.imports, r.classes, r.functions⟩ : StructuralRecord)
          = .ok d := h
      injection h2 with h'
      subst h'
      obtain ⟨hf, hcl⟩ := parseGo_origin (walkModule m) r hp
      constructor
      · intro fi hfi
        exact hf fi hfi
      · intro cl hclm
        obtain ⟨p, n, dd, b, hmem, hn, _, hms⟩ := hcl cl hclm
        exact ⟨p, n, dd, b, hmem, hn, methodsOf_origin b cl.methods hms⟩

/-- C4, witness: the amended theorem applied to a one function module. -/
theorem C4_witness :
    (∀ fi ∈ (StructuralRecord.mk 3 [] [] [⟨"f", none, [], none⟩]).functions,
        ∃ p n dd a rt b,
          (p, Stmt.funcDef n dd a rt b)
            ∈ walkModule [Stmt.funcDef "f" none [] none [Stmt.simple]] ∧
          isClassDefOpt p = false ∧ funcInfoOf n dd a rt = .ok fi) ∧
    (∀ cl ∈ (StructuralRecord.mk 3 [] [] [⟨"f", none, [], none⟩]).classes,
        ∃ p n dd b,
          (p, Stmt.classDef n dd b)
            ∈ walkModule [Stmt.funcDef "f" none [] none [Stmt.simple]] ∧
          cl.name = n ∧
          ∀ fi ∈ cl.methods, ∃ n2 d2 a2 rt2 b2,
            Stmt.funcDef n2 d2 a2 rt2 b2 ∈ b ∧ funcInfoOf n2 d2 a2 rt2 = .ok fi) :=
  C4_amended 3 [Stmt.funcDef "f" none [] none [Stmt.simple]]
    ⟨3, [], [], [⟨"f", none, [], none⟩]⟩ rfl

/-- C5 (confirmed).  has_type_annotations returns true exactly when
every entry of the parameter list has a non absent annotation and the
return annotation is non absent; a zero parameter function is fully
annotated exactly when its return is annotated; and a function missing
only the return annotation is reported as missing exactly once by the
missing list of check_type_annotations. -/
theorem C5_theorem (f : FunctionInfo) (lc : Nat) (imps : List String) :
    (has_type_annotations f = true ↔
      ((∀ a ∈ f.args, a.annot ≠ none) ∧ f.returns ≠ none)) ∧
    (f.args = [] → (has_type_annotations f = true ↔ f.returns ≠ none)) ∧
    ((∀ a ∈ f.args, a.annot ≠ none) → f.returns = none →
      missingAnnotations ⟨lc, imps, [], [f]⟩ = ["Function " ++ quoted f.name]) := by
  refine ⟨?_, ?_, ?_⟩
  · rw [has_type_annotations, Bool.and_eq_true, List.all_eq_true]
    simp [Option.isSome_iff_ne_none]
  · intro hargs
    rw [has_type_annotations, hargs, Bool.and_eq_true]
    simp [Option.isSome_iff_ne_none]
  · intro hall hret
    have hhas : has_type_annotations f = false := by
      rw [has_type_annotations, hret]
      simp
    rw [missingAnnotations]
    simp [hhas]

/-- C5, witness: the conjunction instantiated at a function with one
annotated parameter and no return annotation. -/
theorem C5_witness :
    (has_type_annotations ⟨"g", none, [⟨"x", some "int"⟩], none⟩ = true ↔
      ((∀ a ∈ (FunctionInfo.mk "g" none [⟨"x", some "int"⟩] none).args, a.annot ≠ none) ∧
        (FunctionInfo.mk "g" none [⟨"x", some "int"⟩] none).returns ≠ none)) ∧
    ((FunctionInfo.mk "g" none [⟨"x", some "int"⟩] none).args = [] →
      (has_type_annotations ⟨"g", none, [⟨"x", some "int"⟩], none⟩ = true ↔
        (FunctionInfo.mk "g" none [⟨"x", some "int"⟩] none).returns ≠ none)) ∧
    ((∀ a ∈ (FunctionInfo.mk "g" none [⟨"x", some "int"⟩] none).args, a.annot ≠ none) →
      (FunctionInfo.mk "g" none [⟨"x", some "int"⟩] none).returns = none →
      missingAnnotations ⟨0, [], [], [⟨"g", none, [⟨"x", some "int"⟩], none⟩]⟩
        = ["Function " ++ quoted (FunctionInfo.mk "g" none [⟨"x", some "int"⟩] none).name]) :=
  C5_theorem ⟨"g", none, [⟨"x", some "int"⟩], none⟩ 0 []

/-- C6 (confirmed).  The naming check flags a class name exactly when
it fails the CamelCase regex and a function or method name exactly when
it fails the snake case regex; HTTPServer passes, http_server fails,
do_thing passes, DoThing fails; violations are grouped under the
Classes and the Functions and Methods subsections and a single
confirmation line is produced when there is no violation. -/
theorem C6_theorem (d : StructuralRecord) :
    classNamePat "HTTPServer" = true ∧
    classNamePat "http_server" = false ∧
    funcNamePat "do_thing" = true ∧
    funcNamePat "DoThing" = false ∧
    (∀ c ∈ d.classes, classNamePat c.name = false → classIssueLine c ∈ classIssues d) ∧
    (∀ e ∈ classIssues d, ∃ c ∈ d.classes,
        classNamePat c.name = false ∧ e = classIssueLine c) ∧
    (∀ c ∈ d.classes, ∀ m ∈ c.methods, funcNamePat m.name = false →
        methodIssueLine c.name m ∈ funcIssues d) ∧
    (∀ f ∈ d.functions, funcNamePat f.name = false → funcIssueLine f ∈ funcIssues d) ∧
    (∀ e ∈ funcIssues d,
        (∃ c ∈ d.classes, ∃ m ∈ c.methods,
          funcNamePat m.name = false ∧ e = methodIssueLine c.name m) ∨
        (∃ f ∈ d.functions, funcNamePat f.name = false ∧ e = funcIssueLine f)) ∧
    (classIssues d = [] → funcIssues d = [] →
        check_naming_conventions d = "All names adhere to the specified naming convention.") ∧
    (¬(classIssues d = [] ∧ funcIssues d = []) →
        check_naming_conventions d = "Naming Convention Issues:\n" ++ String.intercalate "\n"
          ((if classIssues d = [] then []
            else "Classes:" :: (classIssues d).map (fun i => "- " ++ i))
            ++ (if funcIssues d = [] then []
                else "Functions/Methods:" :: (funcIssues d).map (fun i => "- " ++ i)))) := by
  refine ⟨by decide, by decide, by decide, by decide, ?_, ?_, ?_, ?_, ?_, ?_, ?_⟩
  · intro c hc hfail
    rw [classIssues]
    exact List.mem_map_of_mem _ (List.mem_filter.mpr ⟨hc, by rw [hfail]; rfl⟩)
  · intro e he
    rw [classIssues] at he
    obtain ⟨c, hcf, hce⟩ := List.mem_map.mp he
    obtain ⟨hc, hp⟩ := List.mem_filter.mp hcf
    exact ⟨c, hc, by simpa using hp, hce.symm⟩
  · intro c hc m hm hfail
    rw [funcIssues]
    refine List.mem_append.mpr (Or.inl ?_)
    exact List.mem_flatMap.mpr ⟨c, hc,
      List.mem_map_of_mem _ (List.mem_filter.mpr ⟨hm, by rw [hfail]; rfl⟩)⟩
  · intro f hf hfail
    rw [funcIssues]
    refine List.mem_append.mpr (Or.inr ?_)
    exact List.mem_map_of_mem _ (List.mem_filter.mpr ⟨hf, by rw [hfail]; rfl⟩)
  · intro e he
    rw [funcIssues] at he
    rcases List.mem_append.mp he with he | he
    · obtain ⟨c, hc, hme⟩ := List.mem_flatMap.mp he
      obtain ⟨m, hmf, hmeq⟩ := List.mem_map.mp hme
      obtain ⟨hm, hp⟩ := List.mem_filter.mp hmf
      exact Or.inl ⟨c, hc, m, hm, by simpa using hp, hmeq.symm⟩
    · obtain ⟨f, hff, hfe⟩ := List.mem_map.mp he
      obtain ⟨hf, hp⟩ := List.mem_filter.mp hff
      exact Or.inr ⟨f, hf, by simpa using hp, hfe.symm⟩
  · intro h1 h2
    rw [check_naming_conventions, if_pos (by rw [h1, h2]; rfl)]
  · intro hne
    have hcond : ((classIssues d).isEmpty && (funcIssues d).isEmpty) = false := by
      rcases hcl : classIssues d with _ | ⟨x, xs⟩
      · rcases hfl : funcIssues d with _ | ⟨y, ys⟩
        · exact absurd ⟨hcl, hfl⟩ hne
        · rfl
      · rfl
    rw [check_naming_conventions, if_neg (by rw [hcond]; exact Bool.false_ne_true)]
    rcases hcl : classIssues d with _ | ⟨x, xs⟩ <;>
      rcases hfl : funcIssues d with _ | ⟨y, ys⟩
    · exact absurd ⟨hcl, hfl⟩ hne
    · rfl
    · rfl
    · rfl

/-- C6, witness: the conjunction instantiated at the empty structural
record, whose naming report is the single confirmation line. -/
theorem C6_witness :
    classNamePat "HTTPServer" = true ∧
    classNamePat "http_server" = false ∧
    funcNamePat "do_thing" = true ∧
    funcNamePat "DoThing" = false ∧
    (∀ c ∈ (StructuralRecord.mk 0 [] [] []).classes,
        classNamePat c.name = false →
        classIssueLine c ∈ classIssues ⟨0, [], [], []⟩) ∧
    (∀ e ∈ classIssues ⟨0, [], [], []⟩, ∃ c ∈ (StructuralRecord.mk 0 [] [] []).classes,
        classNamePat c.name = false ∧ e = classIssueLine c) ∧
    (∀ c ∈ (StructuralRecord.mk 0 [] [] []).classes, ∀ m ∈ c.methods,
        funcNamePat m.name = false →
        methodIssueLine c.name m ∈ funcIssues ⟨0, [], [], []⟩) ∧
    (∀ f ∈ (StructuralRecord.mk 0 [] [] []).functions,
        funcNamePat f.name = false → funcIssueLine f ∈ funcIssues ⟨0, [], [], []⟩) ∧
    (∀ e ∈ funcIssues ⟨0, [], [], []⟩,
        (∃ c ∈ (StructuralRecord.mk 0 [] [] []).classes, ∃ m ∈ c.methods,
          funcNamePat m.name = false ∧ e = methodIssueLine c.name m) ∨
        (∃ f ∈ (StructuralRecord.mk 0 [] [] []).functions,
          funcNamePat f.name = false ∧ e = funcIssueLine f)) ∧
    (classIssues ⟨0, [], [], []⟩ = [] → funcIssues ⟨0, [], [], []⟩ = [] →
        check_naming_conventions ⟨0, [], [], []⟩
          = "All names adhere to the specified naming convention.") ∧
    (¬(classIssues ⟨0, [], [], []⟩ = [] ∧ funcIssues ⟨0, [], [], []⟩ = []) →
        check_naming_conventions ⟨0, [], [], []⟩
          = "Naming Convention Issues:\n" ++ String.intercalate "\n"
          ((if classIssues ⟨0, [], [], []⟩ = [] then []
            else "Classes:" :: (classIssues ⟨0, [], [], []⟩).map (fun i => "- " ++ i))
            ++ (if funcIssues ⟨0, [], [], []⟩ = [] then []
                else "Functions/Methods:"
                  :: (funcIssues ⟨0, [], [], []⟩).map (fun i => "- " ++ i)))) :=
  C6_theorem ⟨0, [], [], []⟩

/-- C7, counterexample.  The claim says classes appear in the same
order as their declarations appear in the source text.  The traversal
is breadth first, so for a class B nested inside class A followed by a
top level class C, the source text order is A, B, C but the extracted
order is A, C, B. -/
theorem C7_counterexample :
    parseTree nestedClassTree =
      .ok ⟨[], [⟨"A", none, []⟩, ⟨"C", none, []⟩, ⟨"B", none, []⟩], []⟩ ∧
    srcClassNamesL nestedClassTree = ["A", "B", "C"] ∧
    ([⟨"A", none, []⟩, ⟨"C", none, []⟩, ⟨"B", none, []⟩] : List ClassInfo).map ClassInfo.name
      = ["A", "C", "B"] ∧
    (["A", "C", "B"] : List String) ≠ ["A", "B", "C"] :=
  ⟨rfl, rfl, rfl, by decide⟩

/-- C7, amended.  For every module with no declarations nested beyond
methods directly inside classes, the extracted imports, classes with
their method names, and functions with their parameter names appear
exactly in the order of the corresponding declarations in the source
text; with deeper nesting the breadth first walk lists nested
declarations after all shallower ones. -/
theorem C7_amended (lc : Nat) (m : List Stmt) (d : StructuralRecord)
    (hflat : flatModule m = true) (h : parse_file_structure lc m = .ok d) :
    d.imports = m.flatMap importStringsOf ∧
    d.classes.map (fun c => (c.name, c.methods.map FunctionInfo.name))
      = m.filterMap srcClassSig ∧
    d.functions.map (fun f => (f.name, f.args.map ParamInfo.name))
      = m.filterMap srcFunSig := by
  rw [parse_file_structure] at h
  cases hp : parseTree m with
  | error e => rw [hp] at h; exact Except.noConfusion h
  | ok r =>
      rw [hp] at h
      have h2 : Except.ok (⟨lc, r.imports, r.classes, r.functions⟩ : StructuralRecord)
          = .ok d := h
      injection h2 with h'
      subst h'
      have hp2 : flatContrib m = .ok r := by
        rw [← parseTree_flat m hflat]
        exact hp
      exact flatContrib_ok m r hp2

/-- C7, witness: the amended theorem applied to a flat module with one
class holding one method and one standalone function. -/
theorem C7_witness :
    flatModule [Stmt.classDef "A" none
        [Stmt.funcDef "m" none [⟨"x", none⟩] none [Stmt.simple]],
      Stmt.funcDef "f" none [] none [Stmt.simple]] = true ∧
    ((StructuralRecord.mk 7 []
        [⟨"A", none, [⟨"m", none, [⟨"x", none⟩], none⟩]⟩]
        [⟨"f", none, [], none⟩]).imports
      = [Stmt.classDef "A" none
          [Stmt.funcDef "m" none [⟨"x", none⟩] none [Stmt.simple]],
        Stmt.funcDef "f" none [] none [Stmt.simple]].flatMap importStringsOf ∧
    (StructuralRecord.mk 7 []
        [⟨"A", none, [⟨"m", none, [⟨"x", none⟩], none⟩]⟩]
        [⟨"f", none, [], none⟩]).classes.map
          (fun c => (c.name, c.methods.map FunctionInfo.name))
      = [Stmt.classDef "A" none
          [Stmt.funcDef "m" none [⟨"x", none⟩] none [Stmt.simple]],
        Stmt.funcDef "f" none [] none [Stmt.simple]].filterMap srcClassSig ∧
    (StructuralRecord.mk 7 []
        [⟨"A", none, [⟨"m", none, [⟨"x", none⟩], none⟩]⟩]
        [⟨"f", none, [], none⟩]).functions.map
          (fun f => (f.name, f.args.map ParamInfo.name))
      = [Stmt.classDef "A" none
          [Stmt.funcDef "m" none [⟨"x", none⟩] none [Stmt.simple]],
        Stmt.funcDef "f" none [] none [Stmt.simple]].filterMap srcFunSig) :=
  ⟨rfl, C7_amended 7
    [Stmt.classDef "A" none [Stmt.funcDef "m" none [⟨"x", none⟩] none [Stmt.simple]],
     Stmt.funcDef "f" none [] none [Stmt.simple]]
    ⟨7, [], [⟨"A", none, [⟨"m", none, [⟨"x", none⟩], none⟩]⟩], [⟨"f", none, [], none⟩]⟩
    rfl rfl⟩

/-- C8 (confirmed).  When the external parser raises a syntax error,
the run aborts before any structural record is produced and main opens
and writes no report file: the pipeline propagates the error and the
observable output is absent. -/
theorem C8_theorem (p : Except String (List Stmt)) (lc : Nat) (fn msg : String)
    (h : p = .error msg) :
    run_pipeline p lc = .error (.syntaxError msg) ∧ main_output p lc fn = none := by
  subst h
  exact ⟨rfl, rfl⟩

/-- C8, witness: a failed parse produces no output file. -/
theorem C8_witness :
    run_pipeline (.error "invalid syntax") 0 = .error (.syntaxError "invalid syntax") ∧
    main_output (.error "invalid syntax") 0 "test.py" = none :=
  C8_theorem (.error "invalid syntax") 0 "test.py" "invalid syntax" rfl

/-- C9 (confirmed).  The report pipeline is deterministic: two runs of
extraction followed by report generation on the same parsed content
and line count produce byte identical report strings. -/
theorem C9_theorem (p : Except String (List Stmt)) (lc : Nat) (r1 r2 : String)
    (h1 : run_pipeline p lc = .ok r1) (h2 : run_pipeline p lc = .ok r2) :
    r1 = r2 := by
  rw [h1] at h2
  exact Except.ok.inj h2

/-- C9, witness: two runs on the empty module agree. -/
theorem C9_witness : emptyModuleReport = emptyModuleReport :=
  C9_theorem (.ok []) 0 emptyModuleReport emptyModuleReport rfl rfl

/-- C10 (confirmed).  Async function definitions are ignored by
extraction: every record in functions and every method of every class
originates from a plain (non async) function definition node, so an
async declaration at module level or as a direct child of a class body
appears in neither list. -/
theorem C10_theorem (lc : Nat) (m : List Stmt) (d : StructuralRecord)
    (h : parse_file_structure lc m = .ok d) :
    (∀ fi ∈ d.functions, ∃ p s, (p, s) ∈ walkModule m ∧
        isSyncFuncDef s = true ∧ stmtFuncInfo s = some (.ok fi)) ∧
    (∀ cl ∈ d.classes, ∀ fi ∈ cl.methods, ∃ p n dd b,
        (p, Stmt.classDef n dd b) ∈ walkModule m ∧ cl.name = n ∧
        ∃ s ∈ b, isSyncFuncDef s = true ∧ stmtFuncInfo s = some (.ok fi)) := by
  rw [parse_file_structure] at h
  cases hp : parseTree m with
  | error e => rw [hp] at h; exact Except.noConfusion h
  | ok r =>
      rw [hp] at h
      have h2 : Except.ok (⟨lc, r.imports, r.classes, r.functions⟩ : StructuralRecord)
          = .ok d := h
      injection h2 with h'
      subst h'
      obtain ⟨hf, hcl⟩ := parseGo_origin (walkModule m) r hp
      constructor
      · intro fi hfi
        obtain ⟨p, n, dd, a, rt, b, hmem, _, hok⟩ := hf fi hfi
        refine ⟨p, Stmt.funcDef n dd a rt b, hmem, rfl, ?_⟩
        rw [stmtFuncInfo, hok]
      · intro cl hclm fi hfi
        obtain ⟨p, n, dd, b, hmem, hn, _, hms⟩ := hcl cl hclm
        obtain ⟨n2, d2, a2, rt2, b2, hmem2, hok2⟩ :=
          methodsOf_origin b cl.methods hms fi hfi
        refine ⟨p, n, dd, b, hmem, hn, Stmt.funcDef n2 d2 a2 rt2 b2, hmem2, rfl, ?_⟩
        rw [stmtFuncInfo, hok2]

/-- C10, witness: the theorem applied to a module with an async
function at module level and an async method plus a plain method in a
class body; only the plain method is extracted. -/
theorem C10_witness :
    (∀ fi ∈ (StructuralRecord.mk 2 []
        [⟨"K", none, [⟨"m1", none, [], none⟩]⟩] []).functions,
        ∃ p s, (p, s) ∈ walkModule
          [Stmt.asyncFuncDef "af" none [] none [Stmt.simple],
           Stmt.classDef "K" none
             [Stmt.asyncFuncDef "am" none [] none [Stmt.simple],
              Stmt.funcDef "m1" none [] none [Stmt.simple]]] ∧
          isSyncFuncDef s = true ∧ stmtFuncInfo s = some (.ok fi)) ∧
    (∀ cl ∈ (StructuralRecord.mk 2 []
        [⟨"K", none, [⟨"m1", none, [], none⟩]⟩] []).classes,
        ∀ fi ∈ cl.methods, ∃ p n dd b,
          (p, Stmt.classDef n dd b) ∈ walkModule
            [Stmt.asyncFuncDef "af" none [] none [Stmt.simple],
             Stmt.classDef "K" none
               [Stmt.asyncFuncDef "am" none [] none [Stmt.simple],
                Stmt.funcDef "m1" none [] none [Stmt.simple]]] ∧
          cl.name = n ∧
          ∃ s ∈ b, isSyncFuncDef s = true ∧ stmtFuncInfo s = some (.ok fi)) :=
  C10_theorem 2
    [Stmt.asyncFuncDef "af" none [] none [Stmt.simple],
     Stmt.classDef "K" none
       [Stmt.asyncFuncDef "am" none [] none [Stmt.simple],
        Stmt.funcDef "m1" none [] none [Stmt.simple]]]
    ⟨2, [], [⟨"K", none, [⟨"m1", none, [], none⟩]⟩], []⟩ rfl

end StyleChecker
